import Mathlib

/-!
Shallow embedding of the membership-permission and task-ordering model of the
TaskManagement repository (Express/Mongoose backend).

The embedded functions follow `src/server/src/models/Project.ts` (instance
methods on the project document), `src/server/src/services/projectService.ts`
and `src/server/src/services/taskService.ts`.  Mongo ObjectIds are compared in
the source via `toString()` equality; they are modelled as `Nat` with decidable
equality.  A service operation is a function from an explicit database state
(lists of project and task documents) to `Except ServiceError _`, mirroring
the thrown `createError(...)` codes.
-/

namespace TaskMgmt

abbrev UserId := Nat
abbrev ProjectId := Nat
abbrev TaskId := Nat

/-- Member roles.  The schema enum in `models/Project.ts` stores
`owner | admin | member`; the service layer (`ProjectMemberData`) and the
capability table of the spec additionally use `viewer`. -/
inductive Role
  | owner
  | admin
  | member
  | viewer
deriving DecidableEq, Repr

/-- The named capabilities consulted by the services:
`canEdit`, `canDelete`, `canInvite`, `canManageTasks`. -/
inductive Capability
  | canEdit
  | canDelete
  | canInvite
  | canManageTasks
deriving DecidableEq, Repr

/-- `projectMemberSchema`: `(userId, role, joinedAt)`. -/
structure ProjectMember where
  userId : UserId
  role : Role
  joinedAt : Nat
deriving DecidableEq, Repr

/-- The project document fields the claims depend on
(`projectSchema`: `ownerId`, `members` with default `[]`). -/
structure Project where
  id : ProjectId
  name : String
  ownerId : UserId
  members : List ProjectMember
deriving DecidableEq, Repr

/-- `projectSchema.methods.isMember`: scans `this.members` only
(the `ownerId` field is not consulted). -/
def Project.isMember (p : Project) (u : UserId) : Bool :=
  p.members.any (fun m => m.userId == u)

/-- `projectSchema.methods.getMemberRole`: the stored role of the first
matching member entry, `null` when no entry matches. -/
def Project.getMemberRole (p : Project) (u : UserId) : Option Role :=
  (p.members.find? (fun m => m.userId == u)).map (fun m => m.role)

/-- `Array.prototype.find` followed by mutation of the found element:
overwrite the role of the first entry for `u`, leave everything else alone.
The identity when no entry matches. -/
def setRoleOfFirst : List ProjectMember → UserId → Role → List ProjectMember
  | [], _, _ => []
  | m :: rest, u, r =>
      if m.userId == u then { m with role := r } :: rest
      else m :: setRoleOfFirst rest u r

/-- `projectSchema.methods.addMember`: if an entry for `u` exists its role is
overwritten in place, otherwise a fresh entry with `joinedAt = now` is
appended. -/
def Project.addMember (p : Project) (u : UserId) (r : Role) (now : Nat) : Project :=
  if p.members.any (fun m => m.userId == u) then
    { p with members := setRoleOfFirst p.members u r }
  else
    { p with members := p.members ++ [⟨u, r, now⟩] }

/-- `projectSchema.methods.removeMember`: filter the entry out. -/
def Project.removeMember (p : Project) (u : UserId) : Project :=
  { p with members := p.members.filter (fun m => !(m.userId == u)) }

/-- Modelled from the spec: the services invoke `project.updateMemberRole(userId,
role)` but no such method is defined in `models/Project.ts`; §4.1 specifies
"in-place role replacement; no-op if userId is not found (silent)". -/
def Project.updateMemberRole (p : Project) (u : UserId) (r : Role) : Project :=
  { p with members := setRoleOfFirst p.members u r }

/-- Modelled from the spec: the fixed role → capability table of §4.1
(owner: everything; admin: edit, invite, manage tasks; member: manage tasks
only; viewer: nothing).  No function carrying this table appears under the
repository's source. -/
def roleCapability : Role → Capability → Bool
  | .owner, _ => true
  | .admin, .canDelete => false
  | .admin, _ => true
  | .member, .canManageTasks => true
  | .member, _ => false
  | .viewer, _ => false

/-- Modelled from the spec: the services invoke `project.hasPermission(userId,
capability)` but no such method is defined in `models/Project.ts`; §4.1
specifies "looks up role via `getMemberRole`, then consults the capability
table above; unknown user ⇒ false (fail-closed)".  `getMemberRole` here is the
source's method (member-list lookup). -/
def Project.hasPermission (p : Project) (u : UserId) (c : Capability) : Bool :=
  match p.getMemberRole u with
  | some r => roleCapability r c
  | none => false

/-- The spec's own words for `isMember` (§4.1): "true if userId equals
project.ownerId OR userId appears in the member list" — kept separate from the
source's `Project.isMember` so the two can be compared. -/
def specIsMember (p : Project) (u : UserId) : Bool :=
  u == p.ownerId || p.members.any (fun m => m.userId == u)

/-- The spec's own words for `getMemberRole` (§4.1): "returns `owner`
implicitly for the project owner even if absent from the explicit list;
otherwise the stored role; null if not a member" — kept separate from the
source's `Project.getMemberRole` so the two can be compared. -/
def specGetMemberRole (p : Project) (u : UserId) : Option Role :=
  if u == p.ownerId then some Role.owner else p.getMemberRole u

/-- The task document fields the claims depend on (`taskSchema` /
`TaskResponse`): parent project, optional assignee, creator, free-form status
key and the integer ordering `position`. -/
structure Task where
  id : TaskId
  title : String
  status : String
  projectId : ProjectId
  assigneeId : Option UserId
  createdById : UserId
  position : Int
deriving DecidableEq, Repr

/-- The error codes thrown by the two services via `createError`. -/
inductive ServiceError
  | projectNotFound
  | taskNotFound
  | accessDenied
  | insufficientPermissions
  | invalidAssignee
deriving DecidableEq, Repr

/-- The persistent state the services read and write: the project and task
collections. -/
structure DB where
  projects : List Project
  tasks : List Task
deriving DecidableEq, Repr

/-- `Project.findById`. -/
def DB.findProject (db : DB) (pid : ProjectId) : Option Project :=
  db.projects.find? (fun p => p.id == pid)

/-- `Task.findById`. -/
def DB.findTask (db : DB) (tid : TaskId) : Option Task :=
  db.tasks.find? (fun t => t.id == tid)

/-- Replace the stored project document with the given id (`project.save()`
after in-memory mutation). -/
def DB.saveProject (db : DB) (p : Project) : DB :=
  { db with projects := db.projects.map (fun q => if q.id == p.id then p else q) }

/-- Replace the stored task document with the given id (`task.save()` after
in-memory mutation). -/
def DB.saveTask (db : DB) (t : Task) : DB :=
  { db with tasks := db.tasks.map (fun s => if s.id == t.id then t else s) }

/-- `CreateProjectData`: only the field the claims inspect. -/
structure CreateProjectData where
  name : String
deriving DecidableEq, Repr

/-- `ProjectService.createProject`: builds `new Project({...data, ownerId})`
and saves it.  The creator is NOT inserted into `members` (the schema default
for `members` is the empty list). -/
def createProject (db : DB) (data : CreateProjectData) (ownerId : UserId)
    (newId : ProjectId) : DB × Project :=
  let p : Project := { id := newId, name := data.name, ownerId := ownerId, members := [] }
  ({ db with projects := db.projects ++ [p] }, p)

/-- `ProjectService.getProjectById`: not found ⇒ `PROJECT_NOT_FOUND`; then
`project.isMember(userId)` gates access with `ACCESS_DENIED`. -/
def getProjectById (db : DB) (pid : ProjectId) (userId : UserId) :
    Except ServiceError Project :=
  match db.findProject pid with
  | none => .error .projectNotFound
  | some project =>
      if !(project.isMember userId) then .error .accessDenied
      else .ok project

/-- `UpdateProjectData`: only the field the claims inspect. -/
structure UpdateProjectData where
  name : Option String := none
deriving DecidableEq, Repr

/-- `ProjectService.updateProject`: not found ⇒ `PROJECT_NOT_FOUND`; then
directly `hasPermission(userId, 'canEdit')` ⇒ `INSUFFICIENT_PERMISSIONS`
(there is no separate `isMember` / `ACCESS_DENIED` step in this service). -/
def updateProject (db : DB) (pid : ProjectId) (data : UpdateProjectData)
    (userId : UserId) : Except ServiceError (DB × Project) :=
  match db.findProject pid with
  | none => .error .projectNotFound
  | some project =>
      if !(project.hasPermission userId Capability.canEdit) then
        .error .insufficientPermissions
      else
        let project' := { project with name := data.name.getD project.name }
        .ok (db.saveProject project', project')

/-- `ProjectService.removeMember`: not found ⇒ `PROJECT_NOT_FOUND`; caller
needs `canInvite` ⇒ `INSUFFICIENT_PERMISSIONS`; then the model method
`removeMember` runs and the project is saved.  The task collection is never
touched. -/
def removeMemberService (db : DB) (pid : ProjectId) (memberUserId : UserId)
    (userId : UserId) : Except ServiceError DB :=
  match db.findProject pid with
  | none => .error .projectNotFound
  | some project =>
      if !(project.hasPermission userId Capability.canInvite) then
        .error .insufficientPermissions
      else
        .ok (db.saveProject (project.removeMember memberUserId))

/-- `ProjectService.updateMemberRole`: not found ⇒ `PROJECT_NOT_FOUND`; caller
needs `canInvite` ⇒ `INSUFFICIENT_PERMISSIONS`; then the (spec-modelled) model
method `updateMemberRole` runs and the project is saved. -/
def updateMemberRoleService (db : DB) (pid : ProjectId) (memberUserId : UserId)
    (role : Role) (userId : UserId) : Except ServiceError DB :=
  match db.findProject pid with
  | none => .error .projectNotFound
  | some project =>
      if !(project.hasPermission userId Capability.canInvite) then
        .error .insufficientPermissions
      else
        .ok (db.saveProject (project.updateMemberRole memberUserId role))

/-- `CreateTaskData`: the fields the claims inspect. -/
structure CreateTaskData where
  title : String
  projectId : ProjectId
  assigneeId : Option UserId := none
deriving DecidableEq, Repr

/-- The tail of `TaskService.createTask` after its permission checks:
`position` is one plus the highest `position` among the project's tasks — the
lookup `Task.findOne({projectId}).sort({position:-1})` filters on `projectId`
only, not on `status` — or `0` when the project has no task, and the new
document is saved. -/
def createTaskBody (db : DB) (data : CreateTaskData) (createdById : UserId)
    (newId : TaskId) : Except ServiceError (DB × Task) :=
  let positions :=
    (db.tasks.filter (fun t => t.projectId == data.projectId)).map (fun t => t.position)
  let nextPosition : Int :=
    match positions.max? with
    | some m => m + 1
    | none => 0
  let task : Task :=
    { id := newId, title := data.title, status := "pending",
      projectId := data.projectId, assigneeId := data.assigneeId,
      createdById := createdById, position := nextPosition }
  .ok ({ db with tasks := db.tasks ++ [task] }, task)

/-- `TaskService.createTask`: project lookup (`PROJECT_NOT_FOUND`), creator
membership (`ACCESS_DENIED`), assignee membership when an assignee is supplied
(`INVALID_ASSIGNEE`), then `createTaskBody`. -/
def createTask (db : DB) (data : CreateTaskData) (createdById : UserId)
    (newId : TaskId) : Except ServiceError (DB × Task) :=
  match db.findProject data.projectId with
  | none => .error .projectNotFound
  | some project =>
      if !(project.isMember createdById) then .error .accessDenied
      else
        match data.assigneeId with
        | some a =>
            if !(project.isMember a) then .error .invalidAssignee
            else createTaskBody db data createdById newId
        | none => createTaskBody db data createdById newId

/-- `UpdateTaskData`: the fields the claims inspect; `Object.assign` only
overwrites the fields that are present. -/
structure UpdateTaskData where
  title : Option String := none
  status : Option String := none
  position : Option Int := none
  assigneeId : Option UserId := none
deriving DecidableEq, Repr

/-- `Object.assign(task, data)` over the modelled fields. -/
def applyTaskUpdate (t : Task) (d : UpdateTaskData) : Task :=
  { t with
    title := d.title.getD t.title
    status := d.status.getD t.status
    position := d.position.getD t.position
    assigneeId := match d.assigneeId with
      | some a => some a
      | none => t.assigneeId }

/-- `TaskService.updateTask`: task lookup (`TASK_NOT_FOUND`); then
`!project || !project.isMember(userId)` ⇒ `ACCESS_DENIED`; then
`hasPermission(userId, 'canManageTasks')` ⇒ `INSUFFICIENT_PERMISSIONS`;
then `Object.assign` and save. -/
def updateTask (db : DB) (tid : TaskId) (data : UpdateTaskData)
    (userId : UserId) : Except ServiceError (DB × Task) :=
  match db.findTask tid with
  | none => .error .taskNotFound
  | some task =>
      match db.findProject task.projectId with
      | none => .error .accessDenied
      | some project =>
          if !(project.isMember userId) then .error .accessDenied
          else if !(project.hasPermission userId Capability.canManageTasks) then
            .error .insufficientPermissions
          else
            let task' := applyTaskUpdate task data
            .ok (db.saveTask task', task')

/-- `TaskService.updateTaskPosition`: task lookup (`TASK_NOT_FOUND`); then
`!project || !project.isMember(userId)` ⇒ `ACCESS_DENIED`; then the supplied
integer is stored verbatim (`task.position = newPosition; task.save()`) —
there is no capability check and no other document is written. -/
def updateTaskPosition (db : DB) (tid : TaskId) (newPosition : Int)
    (userId : UserId) : Except ServiceError DB :=
  match db.findTask tid with
  | none => .error .taskNotFound
  | some task =>
      match db.findProject task.projectId with
      | none => .error .accessDenied
      | some project =>
          if !(project.isMember userId) then .error .accessDenied
          else .ok (db.saveTask { task with position := newPosition })

/-! ## Concrete documents used by witnesses and counterexamples -/

/-- A project whose owner (`9`) is absent from the explicit member list,
which holds the single entry `(5, member)` — exactly the state
`ProjectService.createProject` followed by one `addMember` produces. -/
def wProject : Project :=
  { id := 1, name := "P", ownerId := 9, members := [⟨5, Role.member, 0⟩] }

/-- Three tasks of project `1` with positions `[0, 1, 2]` spread over three
distinct statuses. -/
def wDB : DB :=
  { projects := [wProject],
    tasks := [⟨10, "a", "backlog", 1, none, 5, 0⟩,
              ⟨11, "b", "done", 1, none, 5, 1⟩,
              ⟨12, "c", "in-progress", 1, none, 5, 2⟩] }

/-- Two tasks of project `1`: task `21` at position `0` and task `22` at
position `2`. -/
def w5DB : DB :=
  { projects := [wProject],
    tasks := [⟨21, "A", "backlog", 1, none, 5, 0⟩,
              ⟨22, "B", "backlog", 1, none, 5, 2⟩] }

/-! ## Helper lemmas -/

theorem userId_ne_of_isMember_eq_false {p : Project} {u : UserId}
    (h : p.isMember u = false) : ∀ m ∈ p.members, m.userId ≠ u := by
  intro m hm
  have := List.any_eq_false.mp h m hm
  simpa using this

theorem getMemberRole_eq_none_of_not_member {p : Project} {u : UserId}
    (h : p.isMember u = false) : p.getMemberRole u = none := by
  unfold Project.getMemberRole
  have hfind : p.members.find? (fun m => m.userId == u) = none := by
    rw [List.find?_eq_none]
    intro m hm
    simpa using userId_ne_of_isMember_eq_false h m hm
  rw [hfind]
  rfl

theorem setRoleOfFirst_of_forall_ne {u : UserId} {r : Role} :
    ∀ {l : List ProjectMember}, (∀ m ∈ l, m.userId ≠ u) → setRoleOfFirst l u r = l
  | [], _ => rfl
  | m :: rest, h => by
      have hm : ¬(m.userId == u) = true := by
        simpa using h m (List.mem_cons_self m rest)
      simp only [setRoleOfFirst, if_neg hm]
      rw [setRoleOfFirst_of_forall_ne (fun x hx => h x (List.mem_cons_of_mem m hx))]

theorem any_setRoleOfFirst (u : UserId) (r : Role) :
    ∀ l : List ProjectMember,
      (setRoleOfFirst l u r).any (fun m => m.userId == u)
        = l.any (fun m => m.userId == u)
  | [] => rfl
  | m :: rest => by
      have ih := any_setRoleOfFirst u r rest
      by_cases hm : (m.userId == u) = true
      · simp [setRoleOfFirst, hm]
      · simp [setRoleOfFirst, hm, ih]

theorem setRoleOfFirst_idem (u : UserId) (r : Role) :
    ∀ l : List ProjectMember,
      setRoleOfFirst (setRoleOfFirst l u r) u r = setRoleOfFirst l u r
  | [] => rfl
  | m :: rest => by
      by_cases hm : (m.userId == u) = true
      · simp [setRoleOfFirst, hm]
      · simp [setRoleOfFirst, hm, setRoleOfFirst_idem u r rest]

theorem setRoleOfFirst_append_of_forall_ne {u : UserId} {r : Role}
    (l₂ : List ProjectMember) :
    ∀ {l₁ : List ProjectMember}, (∀ m ∈ l₁, m.userId ≠ u) →
      setRoleOfFirst (l₁ ++ l₂) u r = l₁ ++ setRoleOfFirst l₂ u r
  | [], _ => rfl
  | m :: rest, h => by
      have hm : ¬(m.userId == u) = true := by
        simpa using h m (List.mem_cons_self m rest)
      have ih := setRoleOfFirst_append_of_forall_ne (u := u) (r := r) l₂
        (fun x hx => h x (List.mem_cons_of_mem m hx))
      simp [setRoleOfFirst, hm, ih]

theorem filter_setRoleOfFirst (u : UserId) (r : Role) :
    ∀ l : List ProjectMember,
      (l.filter (fun m => m.userId == u)).length ≤ 1 →
      (setRoleOfFirst l u r).filter (fun m => m.userId == u)
        = (l.filter (fun m => m.userId == u)).map (fun m => { m with role := r })
  | [], _ => rfl
  | m :: rest, h => by
      by_cases hm : (m.userId == u) = true
      · have hm' : (({ m with role := r } : ProjectMember).userId == u) = true := hm
        have hcons : List.filter (fun m => m.userId == u) (m :: rest)
            = m :: rest.filter (fun m => m.userId == u) := by
          simp [List.filter_cons, hm]
        rw [hcons] at h
        have hlen : (rest.filter (fun m => m.userId == u)).length = 0 := by
          simp only [List.length_cons] at h
          omega
        have hrest : rest.filter (fun m => m.userId == u) = [] :=
          List.length_eq_zero.mp hlen
        simp [setRoleOfFirst, hm, hm', List.filter_cons, hcons, hrest]
      · have hcons : List.filter (fun m => m.userId == u) (m :: rest)
            = rest.filter (fun m => m.userId == u) := by
          simp [List.filter_cons, hm]
        rw [hcons] at h ⊢
        have ih := filter_setRoleOfFirst u r rest h
        simp [setRoleOfFirst, hm, ih]

/-! ## Claims -/

/-- C1, counterexample: on a project whose owner is not listed in `members`
(the state `createProject` itself produces), the source's `isMember` answers
`false` for the owner while the spec's sentence demands `true`. -/
theorem isMember_owner_not_implicit_cex :
    wProject.ownerId = 9 ∧ specIsMember wProject 9 = true
      ∧ wProject.isMember 9 = false :=
  ⟨rfl, rfl, rfl⟩

/-- C1, amended: `isMember(P, U)` returns true iff U appears in P's member
list; the owner is NOT implicitly included. -/
theorem isMember_iff_member_list (p : Project) (u : UserId) :
    p.isMember u = true ↔ ∃ m ∈ p.members, m.userId = u := by
  simp [Project.isMember, List.any_eq_true]

/-- C2: `hasPermission` (modelled from the spec, since the method the services
call is absent from `models/Project.ts`) returns exactly what the fixed
role-capability table prescribes — owner: everything; admin: edit, invite,
manage tasks; member: manage tasks only; viewer: nothing — and returns false
for any user without a member entry (fail-closed). -/
theorem hasPermission_matches_table (p : Project) (u : UserId) (c : Capability) :
    (p.getMemberRole u = none → p.hasPermission u c = false)
    ∧ (p.getMemberRole u = some Role.owner → p.hasPermission u c = true)
    ∧ (p.getMemberRole u = some Role.admin →
        p.hasPermission u Capability.canEdit = true
        ∧ p.hasPermission u Capability.canDelete = false
        ∧ p.hasPermission u Capability.canInvite = true
        ∧ p.hasPermission u Capability.canManageTasks = true)
    ∧ (p.getMemberRole u = some Role.member →
        p.hasPermission u Capability.canEdit = false
        ∧ p.hasPermission u Capability.canDelete = false
        ∧ p.hasPermission u Capability.canInvite = false
        ∧ p.hasPermission u Capability.canManageTasks = true)
    ∧ (p.getMemberRole u = some Role.viewer → p.hasPermission u c = false)
    ∧ (p.isMember u = false → p.hasPermission u c = false) := by
  refine ⟨?_, ?_, ?_, ?_, ?_, ?_⟩ <;> intro h
  · simp [Project.hasPermission, h]
  · simp [Project.hasPermission, h, roleCapability]
  · simp [Project.hasPermission, h, roleCapability]
  · simp [Project.hasPermission, h, roleCapability]
  · simp [Project.hasPermission, h, roleCapability]
  · simp [Project.hasPermission, getMemberRole_eq_none_of_not_member h]

/-- C3, counterexample: the source's `getMemberRole` answers `null` for a
project owner absent from the member list, where the spec's sentence demands
the implicit role `owner`. -/
theorem getMemberRole_owner_not_implicit_cex :
    wProject.ownerId = 9 ∧ specGetMemberRole wProject 9 = some Role.owner
      ∧ wProject.getMemberRole 9 = none :=
  ⟨rfl, rfl, rfl⟩

/-- C3, amended: `getMemberRole(P, U)` returns U's stored role from the
member list and null when U has no entry there — also when U is the project
owner (the owner is not implicitly assigned the role `owner`). -/
theorem getMemberRole_member_list_only (p : Project) (u : UserId) :
    (p.getMemberRole u = none ↔ p.isMember u = false)
    ∧ (∀ r, p.getMemberRole u = some r →
        ∃ m ∈ p.members, m.userId = u ∧ m.role = r) := by
  constructor
  · simp [Project.getMemberRole, Project.isMember, Option.map_eq_none',
      List.find?_eq_none, List.any_eq_false]
  · intro r h
    obtain ⟨m, hfind, hrole⟩ := Option.map_eq_some'.mp h
    refine ⟨m, List.mem_of_find?_eq_some hfind, ?_, hrole⟩
    simpa using List.find?_some hfind

/-- C4: when `createTask` succeeds and the project already has tasks, the new
task's position is one plus the maximum position over all of the project's
tasks — the filter is on `projectId` only, across all statuses. -/
theorem createTask_position_max_plus_one
    (db : DB) (data : CreateTaskData) (creator : UserId) (newId : TaskId)
    (project : Project) (m : Int)
    (hp : db.findProject data.projectId = some project)
    (hmem : project.isMember creator = true)
    (hassign : ∀ a, data.assigneeId = some a → project.isMember a = true)
    (hmax : ((db.tasks.filter (fun t => t.projectId == data.projectId)).map
        (fun t => t.position)).max? = some m) :
    ∃ db' task, createTask db data creator newId = .ok (db', task)
      ∧ task.position = m + 1 := by
  have hbody : ∃ db' task,
      createTaskBody db data creator newId = .ok (db', task)
        ∧ task.position = m + 1 := by
    refine ⟨_, _, rfl, ?_⟩
    simp [createTaskBody, hmax]
  unfold createTask
  rw [hp]
  cases ha : data.assigneeId with
  | none => simpa [hmem, ha] using hbody
  | some a => simpa [hmem, ha, hassign a ha] using hbody

/-- C4 witness: a project with tasks at positions `[0, 1, 2]` across three
statuses; the created task gets position `3`. -/
theorem createTask_position_max_plus_one_witness :
    ∃ db' task,
      createTask wDB { title := "t", projectId := 1 } 5 100 = .ok (db', task)
        ∧ task.position = 2 + 1 :=
  createTask_position_max_plus_one wDB { title := "t", projectId := 1 } 5 100
    wProject 2 rfl rfl (fun a h => by cases h) rfl

/-- C5: a successful `updateTaskPosition` stores the supplied integer
verbatim on the addressed task and leaves every other task untouched (and
the project collection unchanged). -/
theorem updateTaskPosition_verbatim_frame
    (db : DB) (tid : TaskId) (p : Int) (userId : UserId)
    (task : Task) (project : Project)
    (ht : db.findTask tid = some task)
    (hp : db.findProject task.projectId = some project)
    (hmem : project.isMember userId = true) :
    ∃ db', updateTaskPosition db tid p userId = .ok db'
      ∧ (∀ t ∈ db'.tasks, t.id = tid → t.position = p)
      ∧ (∀ t ∈ db'.tasks, t.id ≠ tid → t ∈ db.tasks)
      ∧ db'.tasks.length = db.tasks.length
      ∧ db'.projects = db.projects := by
  have htid : task.id = tid := by simpa using List.find?_some ht
  refine ⟨db.saveTask { task with position := p }, ?_, ?_, ?_, ?_, rfl⟩
  · unfold updateTaskPosition
    rw [ht]
    simp [hp, hmem]
  · intro t htmem hid
    obtain ⟨s, _, rfl⟩ := List.mem_map.mp htmem
    by_cases hcase : (s.id == task.id) = true
    · simp [hcase]
    · simp only [DB.saveTask] at hid ⊢
      rw [if_neg (by simpa using hcase)] at hid ⊢
      exact absurd (hid.trans htid.symm) (by simpa using hcase)
  · intro t htmem hid
    obtain ⟨s, hs, rfl⟩ := List.mem_map.mp htmem
    by_cases hcase : (s.id == task.id) = true
    · exfalso
      apply hid
      rw [if_pos (by simpa using hcase)]
      exact htid
    · rw [if_neg (by simpa using hcase)]
      exact hs
  · simp [DB.saveTask]

/-- C5 witness: two tasks at positions `0` and `2`; moving the first to
position `2` (B's position) stores `2` verbatim, leaves B in place and
creates a duplicate position. -/
theorem updateTaskPosition_verbatim_frame_witness :
    ∃ db', updateTaskPosition w5DB 21 2 5 = .ok db'
      ∧ (∀ t ∈ db'.tasks, t.id = 21 → t.position = 2)
      ∧ (∀ t ∈ db'.tasks, t.id ≠ 21 → t ∈ w5DB.tasks)
      ∧ db'.tasks.length = w5DB.tasks.length
      ∧ db'.projects = w5DB.projects :=
  updateTaskPosition_verbatim_frame w5DB 21 2 5
    ⟨21, "A", "backlog", 1, none, 5, 0⟩ wProject rfl rfl rfl

/-- C6: `addMember` is an idempotent upsert.  Applying it twice with the same
`(userId, role)` changes nothing the second time, and — provided the member
list respects the at-most-one-entry-per-user invariant — the result holds
exactly one entry for that user, carrying that role. -/
theorem addMember_idempotent_upsert
    (p : Project) (u : UserId) (r : Role) (t₁ t₂ : Nat)
    (hnodup : (p.members.filter (fun m => m.userId == u)).length ≤ 1) :
    (p.addMember u r t₁).addMember u r t₂ = p.addMember u r t₁
    ∧ ((p.addMember u r t₁).members.filter (fun m => m.userId == u)).map
        (fun m => m.role) = [r] := by
  by_cases h : p.members.any (fun m => m.userId == u) = true
  · have h2 : (setRoleOfFirst p.members u r).any (fun m => m.userId == u) = true := by
      rw [any_setRoleOfFirst]
      exact h
    constructor
    · simp only [Project.addMember, h, if_true, h2, setRoleOfFirst_idem]
    · simp only [Project.addMember, h, if_true]
      rw [filter_setRoleOfFirst u r p.members hnodup]
      obtain ⟨m0, hm0, hq⟩ := List.any_eq_true.mp h
      have hmemf : m0 ∈ p.members.filter (fun m => m.userId == u) :=
        List.mem_filter.mpr ⟨hm0, hq⟩
      have hpos : 0 < (p.members.filter (fun m => m.userId == u)).length := by
        apply List.length_pos.mpr
        intro hnil
        rw [hnil] at hmemf
        cases hmemf
      have hone : (p.members.filter (fun m => m.userId == u)).length = 1 := by
        omega
      obtain ⟨m1, hm1⟩ := List.length_eq_one.mp hone
      rw [hm1]
      rfl
  · have hfalse : p.members.any (fun m => m.userId == u) = false :=
      Bool.eq_false_iff.mpr h
    have hforall : ∀ m ∈ p.members, m.userId ≠ u := fun m hm => by
      simpa using List.any_eq_false.mp hfalse m hm
    have hfilnil : p.members.filter (fun m => m.userId == u) = [] := by
      rw [List.filter_eq_nil_iff]
      intro m hm
      simpa using hforall m hm
    have happ : (p.members ++ [(⟨u, r, t₁⟩ : ProjectMember)]).any
        (fun m => m.userId == u) = true := by
      simp [List.any_append]
    constructor
    · simp only [Project.addMember, hfalse, Bool.false_eq_true, if_false, happ, if_true]
      rw [setRoleOfFirst_append_of_forall_ne (u := u) (r := r) _ hforall]
      simp [setRoleOfFirst]
    · simp only [Project.addMember, hfalse, Bool.false_eq_true, if_false]
      simp [List.filter_append, hfilnil]

/-- C6 witness: adding user `6` as admin twice to a project that does not list
them yields one entry with role admin, and the second call is the identity. -/
theorem addMember_idempotent_upsert_witness :
    (wProject.addMember 6 Role.admin 1).addMember 6 Role.admin 2
        = wProject.addMember 6 Role.admin 1
    ∧ ((wProject.addMember 6 Role.admin 1).members.filter
        (fun m => m.userId == 6)).map (fun m => m.role) = [Role.admin] :=
  addMember_idempotent_upsert wProject 6 Role.admin 1 2 (by decide)

/-- C7, counterexample: the fixed order NotFound → AccessDenied →
InsufficientPermissions does NOT hold for every mutating service operation:
`ProjectService.updateProject` has no membership / `ACCESS_DENIED` step, so a
non-member caller fails with `INSUFFICIENT_PERMISSIONS`. -/
theorem updateProject_skips_access_denied_cex :
    wProject.isMember 6 = false
    ∧ updateProject wDB 1 {} 6 = .error .insufficientPermissions :=
  ⟨rfl, rfl⟩

/-- C7, amended: the task-service mutating operations do check in the fixed
order — with the task and its project present, a non-member caller receives
`ACCESS_DENIED` before any capability check can produce
`INSUFFICIENT_PERMISSIONS`; the project-service mutations skip the
membership step and go straight to the capability check. -/
theorem taskOps_access_denied_before_permissions
    (db : DB) (tid : TaskId) (data : UpdateTaskData) (userId : UserId)
    (task : Task) (project : Project)
    (ht : db.findTask tid = some task)
    (hp : db.findProject task.projectId = some project)
    (hmem : project.isMember userId = false) :
    updateTask db tid data userId = .error .accessDenied
    ∧ ∀ pos : Int, updateTaskPosition db tid pos userId = .error .accessDenied := by
  constructor
  · unfold updateTask
    rw [ht]
    simp [hp, hmem]
  · intro pos
    unfold updateTaskPosition
    rw [ht]
    simp [hp, hmem]

/-- C7 witness: user `6` is no member of project `1`; updating task `21` (or
its position) fails with `ACCESS_DENIED`. -/
theorem taskOps_access_denied_before_permissions_witness :
    updateTask w5DB 21 {} 6 = .error .accessDenied
    ∧ ∀ pos : Int, updateTaskPosition w5DB 21 pos 6 = .error .accessDenied :=
  taskOps_access_denied_before_permissions w5DB 21 {} 6
    ⟨21, "A", "backlog", 1, none, 5, 0⟩ wProject rfl rfl rfl

/-- C8: `updateMemberRole` (modelled from the spec, since the method the
service calls is absent from `models/Project.ts`) on a user without a member
entry is a no-op: the project — in particular its member list — is returned
unchanged, and no failure is raised at this layer. -/
theorem updateMemberRole_nonmember_noop
    (p : Project) (u : UserId) (r : Role)
    (h : p.isMember u = false) :
    p.updateMemberRole u r = p := by
  unfold Project.updateMemberRole
  rw [setRoleOfFirst_of_forall_ne (userId_ne_of_isMember_eq_false h)]

/-- C8 witness: user `6` has no entry in `wProject`; the role update leaves
the project untouched. -/
theorem updateMemberRole_nonmember_noop_witness :
    wProject.updateMemberRole 6 Role.admin = wProject :=
  updateMemberRole_nonmember_noop wProject 6 Role.admin rfl

/-- C9: creating a task whose assignee is not a project member fails with
`INVALID_ASSIGNEE`; and the membership check happens only at creation time —
`removeMember` at the service level never touches the task collection, so
removing the user later clears no `assigneeId`. -/
theorem createTask_invalid_assignee_no_cascade
    (db : DB) (data : CreateTaskData) (creator w : UserId) (newId : TaskId)
    (project : Project)
    (hp : db.findProject data.projectId = some project)
    (hmem : project.isMember creator = true)
    (ha : data.assigneeId = some w)
    (hw : project.isMember w = false) :
    createTask db data creator newId = .error .invalidAssignee
    ∧ ∀ (db₂ : DB) (pid : ProjectId) (uid : UserId) (db₂' : DB),
        removeMemberService db₂ pid w uid = .ok db₂' → db₂'.tasks = db₂.tasks := by
  constructor
  · unfold createTask
    rw [hp]
    simp [hmem, ha, hw]
  · intro db₂ pid uid db₂' hok
    unfold removeMemberService at hok
    cases hfp : db₂.findProject pid with
    | none =>
        rw [hfp] at hok
        cases hok
    | some proj =>
        rw [hfp] at hok
        by_cases hperm : proj.hasPermission uid Capability.canInvite = true
        · simp only [hperm, Bool.not_true, Bool.false_eq_true, if_false,
            Except.ok.injEq] at hok
          rw [← hok]
          rfl
        · have hperm' : proj.hasPermission uid Capability.canInvite = false :=
            Bool.eq_false_iff.mpr hperm
          simp [hperm'] at hok

/-- C9 witness: user `6` is no member of project `1`, so assigning them at
creation fails, and any successful later `removeMember` of user `6` leaves
every task collection as it was. -/
theorem createTask_invalid_assignee_no_cascade_witness :
    createTask wDB { title := "t", projectId := 1, assigneeId := some 6 } 5 100
        = .error .invalidAssignee
    ∧ ∀ (db₂ : DB) (pid : ProjectId) (uid : UserId) (db₂' : DB),
        removeMemberService db₂ pid 6 uid = .ok db₂' → db₂'.tasks = db₂.tasks :=
  createTask_invalid_assignee_no_cascade wDB
    { title := "t", projectId := 1, assigneeId := some 6 } 5 6 100 wProject
    rfl rfl rfl rfl

theorem find?_append_of_eq_none {α : Type} (p : α → Bool) :
    ∀ l₁ l₂ : List α, l₁.find? p = none → (l₁ ++ l₂).find? p = l₂.find? p
  | [], _, _ => rfl
  | a :: l, l₂, h => by
      cases hpa : p a with
      | true =>
          rw [List.find?_cons_of_pos _ hpa] at h
          cases h
      | false =>
          rw [List.find?_cons_of_neg _ (by simp [hpa])] at h
          rw [List.cons_append, List.find?_cons_of_neg _ (by simp [hpa])]
          exact find?_append_of_eq_none p l l₂ h

/-- C10: `createProject` stores only the `ownerId` and inserts nobody into
the member list; on the fresh project `isMember(project, owner)` is false and
`getProjectById` invoked by the owner fails with `ACCESS_DENIED`. -/
theorem createProject_owner_locked_out
    (db : DB) (data : CreateProjectData) (ownerId : UserId) (newId : ProjectId)
    (hfresh : ∀ q ∈ db.projects, q.id ≠ newId) :
    (createProject db data ownerId newId).2.members = []
    ∧ (createProject db data ownerId newId).2.ownerId = ownerId
    ∧ (createProject db data ownerId newId).2.isMember ownerId = false
    ∧ getProjectById (createProject db data ownerId newId).1 newId ownerId
        = .error .accessDenied := by
  refine ⟨rfl, rfl, rfl, ?_⟩
  have hnone : db.projects.find? (fun p => p.id == newId) = none := by
    rw [List.find?_eq_none]
    intro q hq
    simpa using hfresh q hq
  have hfind : (createProject db data ownerId newId).1.findProject newId
      = some (createProject db data ownerId newId).2 := by
    unfold createProject DB.findProject
    rw [find?_append_of_eq_none _ _ _ hnone]
    simp
  unfold getProjectById
  rw [hfind]
  rfl

/-- C10 witness: user `7` creates project `1` in an empty store and is then
denied access to it. -/
theorem createProject_owner_locked_out_witness :
    (createProject ⟨[], []⟩ ⟨"N"⟩ 7 1).2.members = []
    ∧ (createProject ⟨[], []⟩ ⟨"N"⟩ 7 1).2.ownerId = 7
    ∧ (createProject ⟨[], []⟩ ⟨"N"⟩ 7 1).2.isMember 7 = false
    ∧ getProjectById (createProject ⟨[], []⟩ ⟨"N"⟩ 7 1).1 1 7
        = .error .accessDenied :=
  createProject_owner_locked_out ⟨[], []⟩ ⟨"N"⟩ 7 1 (fun q hq => by cases hq)

end TaskMgmt
